import Mathlib

/-!
Shallow embedding of the news-aggregation pipeline in `main.py`:
timestamp parsing (`try_parse_jst`, `parse_relative_time`), the MSN
resolution cascade (`get_msn_news` / `extract_datetime_from_article`),
the window computation and filter (`compute_window`, `build_daily_sheet`),
per-source dedup and ordering (`dedup_sort`), and the Gemini batch
classification orchestrator (`setup_gemini`, `classify_titles_in_batches`).

Datetimes are modelled as seconds since 1970-01-01 00:00 (local wall
clock), with uniform 86400-second days, matching Python `datetime` /
`timedelta` arithmetic on naive datetimes.  Timestamp strings are
modelled by the pattern class that `datetime.strptime` assigns them in
`try_parse_jst` (naive, literal-Z-suffixed, or explicit-offset), and
relative-time labels by the regex branch of `parse_relative_time` that
matches them; string plumbing such as `.strip()` is applied before the
embedding boundary.
-/

namespace NewsAgg

/-- A local wall-clock instant: seconds since 1970-01-01 00:00. -/
structure DT where
  sec : Int
deriving DecidableEq, Repr

def DT.addSeconds (d : DT) (n : Int) : DT := ⟨d.sec + n⟩

def DT.addMinutes (d : DT) (n : Int) : DT := ⟨d.sec + 60 * n⟩

def DT.addHours (d : DT) (n : Int) : DT := ⟨d.sec + 3600 * n⟩

def DT.addDays (d : DT) (n : Int) : DT := ⟨d.sec + 86400 * n⟩

/-- `datetime.date()`: the day number containing the instant (floor;
`/` on `Int` is Euclidean division, which is floor for a positive
divisor). -/
def DT.dateOf (d : DT) : Int := d.sec / 86400

/-- `datetime.combine(day, time)` with the time given in seconds of the day. -/
def dtCombine (day : Int) (secOfDay : Int) : DT := ⟨day * 86400 + secOfDay⟩

/-- The effect of formatting with `fmt` (`"%Y/%m/%d %H:%M"`) and re-parsing:
seconds are truncated, the minute is kept. -/
def fmtMin (d : DT) : DT := ⟨d.sec - d.sec % 60⟩

/-- Gregorian leap-year rule, as used by Python `datetime`. -/
def isLeap (y : Int) : Bool := (y % 4 == 0 && y % 100 != 0) || (y % 400 == 0)

def daysInMonth (y : Int) (m : Nat) : Nat :=
  if m == 2 then (if isLeap y then 29 else 28)
  else if m == 4 || m == 6 || m == 9 || m == 11 then 30 else 31

/-- Month/day validity as enforced by `datetime.strptime` (which raises,
caught by the caller, on an out-of-range component). -/
def validMD (y : Int) (m d : Nat) : Bool :=
  1 ≤ m && m ≤ 12 && 1 ≤ d && d ≤ daysInMonth y m

/-- Day number (days since 1970-01-01) of a Gregorian calendar date
(floor division makes the 400-year-era split exact for all years). -/
def daysFromCivil (y : Int) (m d : Nat) : Int :=
  let yk : Int := if m ≤ 2 then y - 1 else y
  let era : Int := yk / 400
  let yoe : Int := yk - era * 400
  let mp : Int := if 2 < m then (m : Int) - 3 else (m : Int) + 9
  let doy : Int := (153 * mp + 2) / 5 + (d : Int) - 1
  let doe : Int := yoe * 365 + yoe / 4 - yoe / 100 + doy
  era * 146097 + doe - 719468

/-- Gregorian year containing a given day number (days since 1970-01-01). -/
def civilYear (z0 : Int) : Int :=
  let z : Int := z0 + 719468
  let era : Int := z / 146097
  let doe : Int := z - era * 146097
  let yoe : Int := (doe - doe / 1460 + doe / 36524 - doe / 146096) / 365
  let y : Int := yoe + era * 400
  let doy : Int := doe - (365 * yoe + yoe / 4 - yoe / 100)
  let mp : Int := (5 * doy + 2) / 153
  if mp < 10 then (if mp + 3 ≤ 2 then y + 1 else y) else (if mp - 9 ≤ 2 then y + 1 else y)

/-- A timestamp string, classified by the `strptime` pattern in
`try_parse_jst` that matches it: `naive` for the offset-free patterns
(`"%Y/%m/%d %H:%M"`, ...) with the parsed wall-clock value, `zulu` for
the literal-`Z`-suffixed patterns, `withOffset` for the `%z` patterns
with the parsed wall-clock value and the offset (in minutes) carried by
the string, and `unparseable` when no pattern matches (also covering the
empty string and the sentinel `"取得不可"`, rejected up front). -/
inductive TimeStr where
  | naive (dt : DT)
  | zulu (dt : DT)
  | withOffset (dt : DT) (off : Int)
  | unparseable
deriving DecidableEq, Repr

/-- `try_parse_jst`: parse a timestamp string to a local (JST) wall-clock
datetime.  A pattern ending in literal `Z` gets a fixed `+9h` add; a `%z`
pattern goes through `dt.astimezone(tz=None)` — conversion into the
ambient system timezone, whose UTC offset in minutes is the extra
parameter `sysOff` — and then the `+9h` add; a naive pattern is returned
as parsed. -/
def try_parse_jst (s : TimeStr) (sysOff : Int) : Option DT :=
  match s with
  | .naive dt => some dt
  | .zulu dt => some (dt.addHours 9)
  | .withOffset dt off => some (((dt.addMinutes (-off)).addMinutes sysOff).addHours 9)
  | .unparseable => none

/-- A relative-time label, classified by the regex branch of
`parse_relative_time` that matches it (in the source's try order:
`(\d+)\s*分前`, `(\d+)\s*時間前`, `(\d+)\s*日前`, `\d{1,2}月\d{1,2}日$`,
`\d{4}/\d{1,2}/\d{1,2}$`, `\d{1,2}:\d{2}$`); `noMatch` when none does. -/
inductive RelLabel where
  | minutesAgo (n : Nat)
  | hoursAgo (n : Nat)
  | daysAgo (n : Nat)
  | monthDay (m d : Nat)
  | slashDate (y m d : Nat)
  | hourMin (h mi : Nat)
  | noMatch
deriving DecidableEq, Repr

/-- `parse_relative_time(label, base)`: convert a relative label against
the anchor `base`.  Returns the `fmt`-formatted value re-read as a
datetime (`fmtMin` truncation), or `none` for the `"取得不可"` sentinel. -/
def parse_relative_time (lab : RelLabel) (base : DT) : Option DT :=
  match lab with
  | .minutesAgo n => some (fmtMin (base.addMinutes (-(n : Int))))
  | .hoursAgo n => some (fmtMin (base.addHours (-(n : Int))))
  | .daysAgo n => some (fmtMin (base.addDays (-(n : Int))))
  | .monthDay m d =>
      let y := civilYear base.dateOf
      if validMD y m d then some (fmtMin (dtCombine (daysFromCivil y m d) 0)) else none
  | .slashDate y m d =>
      if 1 ≤ y && validMD (y : Int) m d then
        some (fmtMin (dtCombine (daysFromCivil (y : Int) m d) 0))
      else none
  | .hourMin h mi =>
      if h ≤ 23 && mi ≤ 59 then
        let dt := dtCombine base.dateOf ((h : Int) * 3600 + (mi : Int) * 60)
        some (fmtMin (if base.sec < dt.sec then dt.addDays (-1) else dt))
      else none
  | .noMatch => none

/-- The timestamp-bearing content of a fetched article page, as walked by
`extract_datetime_from_article`: JSON-LD `datePublished`/`dateModified`/
`uploadDate` candidates in document order, then the first
`<time datetime=...>` attribute, then the OG `article:published_time`/
`article:modified_time`/`og:updated_time` metas in the source's try
order.  An empty page (`html` falsy) is the doc with all fields empty. -/
structure ArticleDoc where
  ldValues : List TimeStr
  timeAttr : Option TimeStr
  ogValues : List TimeStr
deriving Repr

/-- `extract_datetime_from_article`: first parseable JSON-LD candidate,
else the `<time>` attribute, else the first parseable OG meta; `none`
models the `"取得不可"` sentinel.  Each hit is returned `fmt`-formatted. -/
def extract_datetime_from_article (doc : ArticleDoc) (sysOff : Int) : Option DT :=
  match doc.ldValues.findSome? (fun v => try_parse_jst v sysOff) with
  | some d => some (fmtMin d)
  | none =>
    match doc.timeAttr.bind (fun v => try_parse_jst v sysOff) with
    | some d => some (fmtMin d)
    | none => (doc.ogValues.findSome? (fun v => try_parse_jst v sysOff)).map fmtMin

/-- The per-card timestamp resolution of `get_msn_news`: try the
`aria-label` relative label against the run anchor `base` first; only if
it yields `"取得不可"` fetch the article and try
`extract_datetime_from_article`; only if that also fails fall back to the
`Last-Modified` header (`lastMod`, already converted, `none` when
absent). -/
def msn_resolve_pub (lab : RelLabel) (doc : ArticleDoc) (lastMod : Option DT)
    (base : DT) (sysOff : Int) : Option DT :=
  match parse_relative_time lab base with
  | some d => some d
  | none =>
    match extract_datetime_from_article doc sysOff with
    | some d => some d
    | none => lastMod

/-- One normalized record (`{"タイトル", "URL", "投稿日", "引用元", "ソース"}`);
`pub` is the `投稿日` string as `try_parse_jst` reads it (`none` =
unparseable or `"取得不可"`). -/
structure NewsRec where
  source : String
  url : String
  title : String
  pub : Option DT
  origin : String
deriving DecidableEq, Repr

def epoch1970 : DT := ⟨0⟩

/-- The sort key of `dedup_sort`: `try_parse_jst(x["投稿日"]) or datetime(1970,1,1)`. -/
def sortKey (r : NewsRec) : Int := (r.pub.getD epoch1970).sec

/-- Stable descending insertion: keep strictly-greater keys ahead, so
equal keys retain list order (Python `list.sort` with `reverse=True` is
stable). -/
def insertDesc (x : NewsRec) : List NewsRec → List NewsRec
  | [] => [x]
  | y :: ys => if sortKey x < sortKey y then y :: insertDesc x ys else x :: y :: ys

/-- `uniq.sort(key=..., reverse=True)`: stable sort, most recent first. -/
def sortByDateDesc : List NewsRec → List NewsRec
  | [] => []
  | x :: xs => insertDesc x (sortByDateDesc xs)

/-- The `seen`-set loop of `dedup_sort`: keep the first record for each URL. -/
def dedupGo (seen : List String) : List NewsRec → List NewsRec
  | [] => []
  | r :: rs =>
      if seen.contains r.url then dedupGo seen rs
      else r :: dedupGo (r.url :: seen) rs

def dedupURL (l : List NewsRec) : List NewsRec := dedupGo [] l

/-- `build_daily_sheet.dedup_sort`: URL-dedup (first wins) then stable
sort by parsed date, descending. -/
def dedup_sort (l : List NewsRec) : List NewsRec := sortByDateDesc (dedupURL l)

/-- The filter predicate of `build_daily_sheet`: `start <= dt <= end`. -/
def inWindow (s e t : DT) : Bool := decide (s.sec ≤ t.sec) && decide (t.sec ≤ e.sec)

/-- `filtered[src]` after the loop of `build_daily_sheet`: records whose
`投稿日` parses, lies in the window, and whose `ソース` is `src`, in input
order. -/
def filteredFor (rows : List NewsRec) (s e : DT) (src : String) : List NewsRec :=
  rows.filter (fun r =>
    match r.pub with
    | none => false
    | some t => inWindow s e t && r.source == src)

/-- The `ordered` list of `build_daily_sheet`: per-source `dedup_sort`,
concatenated in the fixed priority order MSN, Google, Yahoo. -/
def orderedOf (rows : List NewsRec) (s e : DT) : List NewsRec :=
  dedup_sort (filteredFor rows s e "MSN")
    ++ dedup_sort (filteredFor rows s e "Google")
    ++ dedup_sort (filteredFor rows s e "Yahoo")

/-- `compute_window(now_jst)`: `(start, end, label)` with
`start = 昨日15:00`, `end = 今日15:00 − 1s = 今日14:59:59`, and the label
derived from today's date (modelled by the day number). -/
def compute_window (now : DT) : DT × DT × Int :=
  let t15 := dtCombine now.dateOf (15 * 3600)
  (t15.addDays (-1), t15.addSeconds (-1), now.dateOf)

/-- One element of the array parsed from a Gemini batch response by
`parse_batch_response`: the `"row"` field as `int(...)` reads it (`none`
when missing or not convertible, which the source skips via its
`except: continue`), and the `"sentiment"` / `"category"` fields as
strings after `str(...).strip()` (missing keys give `""`). -/
structure RespObj where
  row : Option Int
  sentiment : String
  category : String
deriving DecidableEq, Repr

/-- Outcome of one `model.generate_content` call as
`classify_titles_in_batches` sees it: the call raised (`fail`), or it
returned text that `parse_batch_response` turns into a list of objects
(`ok`; an unparseable or empty response is `ok []`, which the source
treats via its `if not arr` branch). -/
inductive CallResult where
  | fail
  | ok (arr : List RespObj)
deriving DecidableEq, Repr

/-- `results_map`: insertion-ordered key/value pairs, later entries for
the same key shadowing earlier ones (Python dict assignment). -/
abbrev RMap := List (Int × (String × String))

def rmLookup (m : RMap) (k : Int) : Option (String × String) :=
  m.foldl (fun acc kv => if kv.1 == k then some kv.2 else acc) none

/-- The fallback classification `("ニュートラル", "その他")`. -/
def fallbackSC : String × String := ("ニュートラル", "その他")

/-- Fill every row of a batch with the fallback (the source's
`for r,_ in batch: results_map[r] = ("ニュートラル", "その他")`). -/
def fillAll (m : RMap) (batch : List (Int × String)) : RMap :=
  batch.foldl (fun m p => m ++ [(p.1, fallbackSC)]) m

/-- Process one parsed response object: on a readable `"row"`, store the
(defaulted) sentiment/category under that row and mark it covered; on an
unreadable one, skip it. -/
def applyRespObj (acc : RMap × List Int) (obj : RespObj) : RMap × List Int :=
  match obj.row with
  | none => acc
  | some r =>
      let s := if obj.sentiment == "" then "ニュートラル" else obj.sentiment
      let c := if obj.category == "" then "その他" else obj.category
      (acc.1 ++ [(r, (s, c))], acc.2 ++ [r])

/-- The map entries a parsed response array contributes: one entry per
object with a readable `"row"`, in array order, valued by the defaulted
sentiment/category pair. -/
def entriesOf (arr : List RespObj) : RMap :=
  arr.filterMap (fun obj =>
    obj.row.map (fun r =>
      (r, (if obj.sentiment == "" then "ニュートラル" else obj.sentiment,
           if obj.category == "" then "その他" else obj.category))))

/-- The `covered` set a parsed response array produces: the row indices
of its objects with a readable `"row"`. -/
def coveredOf (arr : List RespObj) : List Int :=
  arr.filterMap RespObj.row

/-- After a well-formed response, give the fallback to every batch row
the response did not cover. -/
def fillUncovered (m : RMap) (batch : List (Int × String)) (covered : List Int) : RMap :=
  batch.foldl (fun m p => if covered.contains p.1 then m else m ++ [(p.1, fallbackSC)]) m

/-- The body of the per-batch loop of `classify_titles_in_batches`: a
raised call or an empty parse fills the whole batch with the fallback;
otherwise response entries are stored under the row index they claim and
uncovered batch rows get the fallback. -/
def processBatch (m : RMap) (batch : List (Int × String)) (res : CallResult) : RMap :=
  match res with
  | .fail => fillAll m batch
  | .ok arr =>
      if arr.isEmpty then fillAll m batch
      else
        let mc := arr.foldl applyRespObj (m, [])
        fillUncovered mc.1 batch mc.2

/-- `items[i:i+batch_size]` slicing loop, with explicit fuel (the list
length bounds the number of slices whenever `bs ≥ 1`). -/
def chunksF (bs : Nat) : Nat → List (Int × String) → List (List (Int × String))
  | 0, _ => []
  | _, [] => []
  | fuel + 1, x :: xs => (x :: xs).take bs :: chunksF bs fuel ((x :: xs).drop bs)

def chunks (bs : Nat) (l : List (Int × String)) : List (List (Int × String)) :=
  chunksF bs l.length l

/-- The `items` list of `classify_titles_in_batches`: for each sheet row
after the header (enumerated from 2), the C-column title (`row[2]` if
present, else `""`), kept only when non-empty. -/
def itemsOf (values : List (List String)) : List (Int × String) :=
  (values.drop 1).enum.filterMap (fun p =>
    let t := p.2.getD 2 ""
    if t == "" then none else some ((p.1 : Int) + 2, t))

/-- The enumerated batch loop: batch `i` gets call outcome `oracle i`. -/
def runBatches (oracle : Nat → CallResult) :
    Nat → RMap → List (List (Int × String)) → RMap
  | _, m, [] => m
  | i, m, b :: bsl => runBatches oracle (i + 1) (processBatch m b (oracle i)) bsl

/-- The finished `results_map`: fold the per-batch loop over the batches,
with `oracle i` the outcome of the call for batch `i`. -/
def resultsMap (values : List (List String)) (oracle : Nat → CallResult) (bs : Nat) : RMap :=
  runBatches oracle 0 [] (chunks bs (itemsOf values))

/-- `max_row = max(results_map.keys()) if results_map else 1`. -/
def maxRowOf (m : RMap) : Int :=
  match m with
  | [] => 1
  | kv :: rest => rest.foldl (fun a x => max a x.1) kv.1

/-- `setup_gemini`: `none` (classification skipped) iff the API key is
empty; the configured model otherwise. -/
def setup_gemini (apiKey : String) : Option Unit :=
  if apiKey == "" then none else some ()

/-- The G/H update rows built at the end of `classify_titles_in_batches`:
one `(sentiment, category)` pair for each row from 2 to `max_row`, blank
(`("", "")`) for rows absent from `results_map`. -/
def updatesOf (m : RMap) : List (String × String) :=
  (List.range (maxRowOf m - 1).toNat).map
    (fun i => (rmLookup m ((2 : Int) + (i : Int))).getD ("", ""))

/-- `classify_titles_in_batches(sh, sheet_name, batch_size)`, as a
function of the API key, the sheet values, and the call outcomes.
Returns the G/H rows written starting at G2 (`some updates`), or `none`
when nothing is written: missing API key, empty sheet or short header,
no titled rows, or an empty update list. -/
def classify_titles_in_batches (apiKey : String) (values : List (List String))
    (oracle : Nat → CallResult) (bs : Nat) : Option (List (String × String)) :=
  match setup_gemini apiKey with
  | none => none
  | some _ =>
    match values with
    | [] => none
    | hdr :: _ =>
      if hdr.length < 3 then none
      else
        let items := itemsOf values
        if items.isEmpty then none
        else
          let m := resultsMap values oracle bs
          let updates := updatesOf m
          if updates.isEmpty then none else some updates

/-! ### Lemmas about the result map -/

theorem rmLookup_foldl (k : Int) (l : RMap) :
    ∀ a : Option (String × String),
      l.foldl (fun acc kv => if kv.1 == k then some kv.2 else acc) a =
        match rmLookup l k with
        | some v => some v
        | none => a := by
  induction l with
  | nil => intro a; rfl
  | cons kv rest ih =>
    intro a
    have hcons : rmLookup (kv :: rest) k =
        match rmLookup rest k with
        | some v => some v
        | none => if kv.1 == k then some kv.2 else none := by
      show List.foldl _ (if kv.1 == k then some kv.2 else none) rest = _
      rw [ih (if kv.1 == k then some kv.2 else none)]
    show List.foldl _ (if kv.1 == k then some kv.2 else a) rest = _
    rw [ih (if kv.1 == k then some kv.2 else a), hcons]
    cases rmLookup rest k
    · cases h : (kv.1 == k) <;> simp [h]
    · rfl

theorem rmLookup_cons (kv : Int × (String × String)) (m : RMap) (k : Int) :
    rmLookup (kv :: m) k =
      match rmLookup m k with
      | some v => some v
      | none => if kv.1 == k then some kv.2 else none := by
  show List.foldl _ (if kv.1 == k then some kv.2 else none) m = _
  rw [rmLookup_foldl k m (if kv.1 == k then some kv.2 else none)]

theorem rmLookup_append (m1 m2 : RMap) (k : Int) :
    rmLookup (m1 ++ m2) k =
      match rmLookup m2 k with
      | some v => some v
      | none => rmLookup m1 k := by
  simp only [rmLookup, List.foldl_append]
  exact rmLookup_foldl k m2 _

theorem rmLookup_eq_none_iff (m : RMap) (k : Int) :
    rmLookup m k = none ↔ k ∉ m.map Prod.fst := by
  induction m with
  | nil => simp [rmLookup]
  | cons kv rest ih =>
    rw [rmLookup_cons]
    constructor
    · intro h
      cases hrest : rmLookup rest k with
      | some v => rw [hrest] at h; cases h
      | none =>
        rw [hrest] at h
        have hk : (kv.1 == k) = false := by
          cases hkv : (kv.1 == k)
          · rfl
          · rw [hkv] at h; simp at h
        rw [List.map_cons, List.mem_cons]
        rintro (h1 | h2)
        · rw [h1] at hk; simp at hk
        · exact (ih.mp hrest) h2
    · intro h
      rw [List.map_cons, List.mem_cons] at h
      push_neg at h
      have hrest : rmLookup rest k = none := ih.mpr h.2
      have hne : (kv.1 == k) = false :=
        beq_eq_false_iff_ne.mpr (fun hh => h.1 hh.symm)
      rw [hrest, hne]
      rfl

theorem rmLookup_ne_none_of_mem_keys (m : RMap) (k : Int) (h : k ∈ m.map Prod.fst) :
    rmLookup m k ≠ none := by
  intro hn
  exact (rmLookup_eq_none_iff m k).mp hn h

theorem rmLookup_append_left_ne_none (m1 m2 : RMap) (k : Int)
    (h : rmLookup m1 k ≠ none) : rmLookup (m1 ++ m2) k ≠ none := by
  rw [rmLookup_append]
  cases rmLookup m2 k <;> simp_all

theorem rmLookup_all_eq (m : RMap) (v : String × String) (k : Int)
    (hall : ∀ kv ∈ m, kv.2 = v) (hk : k ∈ m.map Prod.fst) :
    rmLookup m k = some v := by
  induction m with
  | nil => cases hk
  | cons kv rest ih =>
    rw [rmLookup_cons]
    by_cases hmem : k ∈ rest.map Prod.fst
    · rw [ih (fun x hx => hall x (List.mem_cons_of_mem kv hx)) hmem]
    · have hnone : rmLookup rest k = none := (rmLookup_eq_none_iff rest k).mpr hmem
      rw [List.map_cons, List.mem_cons] at hk
      have hk1 : kv.1 = k := by
        rcases hk with h1 | h2
        · exact h1.symm
        · exact absurd h2 hmem
      have hv : kv.2 = v := hall kv (List.mem_cons_self kv rest)
      rw [hnone, hk1, hv]
      simp

/-! ### Structure of the per-batch processing -/

theorem fillAll_eq (batch : List (Int × String)) :
    ∀ m : RMap, fillAll m batch = m ++ batch.map (fun p => (p.1, fallbackSC)) := by
  induction batch with
  | nil => intro m; simp [fillAll]
  | cons p rest ih =>
    intro m
    show fillAll (m ++ [(p.1, fallbackSC)]) rest = _
    rw [ih (m ++ [(p.1, fallbackSC)])]
    simp

theorem fillUncovered_eq (batch : List (Int × String)) (covered : List Int) :
    ∀ m : RMap, fillUncovered m batch covered =
      m ++ (batch.filter (fun p => !covered.contains p.1)).map (fun p => (p.1, fallbackSC)) := by
  induction batch with
  | nil => intro m; simp [fillUncovered]
  | cons p rest ih =>
    intro m
    cases hc : covered.contains p.1 with
    | true =>
      have hf : List.filter (fun q => !covered.contains q.1) (p :: rest)
          = List.filter (fun q => !covered.contains q.1) rest := by
        rw [List.filter_cons]
        rw [hc]
        rfl
      show fillUncovered (if covered.contains p.1 then m else m ++ [(p.1, fallbackSC)]) rest covered = _
      rw [hc]
      simp only [if_true]
      rw [ih m, hf]
    | false =>
      have hf : List.filter (fun q => !covered.contains q.1) (p :: rest)
          = p :: List.filter (fun q => !covered.contains q.1) rest := by
        rw [List.filter_cons]
        rw [hc]
        rfl
      show fillUncovered (if covered.contains p.1 then m else m ++ [(p.1, fallbackSC)]) rest covered = _
      rw [hc]
      simp only [Bool.false_eq_true, if_false]
      rw [ih (m ++ [(p.1, fallbackSC)]), hf]
      simp

theorem applyFold_eq (arr : List RespObj) :
    ∀ (m : RMap) (c : List Int),
      arr.foldl applyRespObj (m, c) = (m ++ entriesOf arr, c ++ coveredOf arr) := by
  induction arr with
  | nil => intro m c; simp [entriesOf, coveredOf]
  | cons obj rest ih =>
    intro m c
    cases hr : obj.row with
    | none =>
      have hstep : applyRespObj (m, c) obj = (m, c) := by
        simp [applyRespObj, hr]
      show List.foldl applyRespObj (applyRespObj (m, c) obj) rest = _
      rw [hstep, ih m c]
      simp [entriesOf, coveredOf, List.filterMap_cons, hr]
    | some r =>
      have hstep : applyRespObj (m, c) obj =
          (m ++ [(r, (if obj.sentiment == "" then "ニュートラル" else obj.sentiment,
                      if obj.category == "" then "その他" else obj.category))], c ++ [r]) := by
        simp [applyRespObj, hr]
      show List.foldl applyRespObj (applyRespObj (m, c) obj) rest = _
      rw [hstep, ih]
      simp [entriesOf, coveredOf, List.filterMap_cons, hr]

theorem keys_entriesOf (arr : List RespObj) :
    (entriesOf arr).map Prod.fst = coveredOf arr := by
  induction arr with
  | nil => rfl
  | cons obj rest ih =>
    cases hr : obj.row with
    | none => simp [entriesOf, coveredOf, List.filterMap_cons, hr] at ih ⊢; exact ih
    | some r => simp [entriesOf, coveredOf, List.filterMap_cons, hr] at ih ⊢; exact ih

theorem fillAll_lookup (m : RMap) (batch : List (Int × String)) (r : Int) :
    rmLookup (fillAll m batch) r =
      if (batch.map Prod.fst).contains r then some fallbackSC else rmLookup m r := by
  rw [fillAll_eq]
  rw [rmLookup_append]
  cases hc : (batch.map Prod.fst).contains r with
  | true =>
    have hc2 : r ∈ batch.map Prod.fst := by simpa using hc
    have hmem : r ∈ (batch.map (fun p => (p.1, fallbackSC))).map Prod.fst := by
      simp only [List.map_map]
      simpa using hc2
    have hall : ∀ kv ∈ batch.map (fun p => (p.1, fallbackSC)), kv.2 = fallbackSC := by
      intro kv hkv
      obtain ⟨q, _, rfl⟩ := List.mem_map.mp hkv
      rfl
    rw [rmLookup_all_eq _ fallbackSC r hall hmem]
    simp
  | false =>
    have hc2 : r ∉ batch.map Prod.fst := by simpa using hc
    have hmem : r ∉ (batch.map (fun p => (p.1, fallbackSC))).map Prod.fst := by
      simp only [List.map_map]
      simpa using hc2
    rw [(rmLookup_eq_none_iff _ r).mpr hmem]
    simp

theorem processBatch_eq_append (m : RMap) (batch : List (Int × String)) (res : CallResult) :
    ∃ s, processBatch m batch res = m ++ s := by
  cases res with
  | fail => exact ⟨_, fillAll_eq batch m⟩
  | ok arr =>
    cases he : arr.isEmpty with
    | true =>
      refine ⟨batch.map (fun p => (p.1, fallbackSC)), ?_⟩
      simp only [processBatch, he, if_true]
      exact fillAll_eq batch m
    | false =>
      refine ⟨entriesOf arr ++ ((batch.filter
        (fun p => !(coveredOf arr).contains p.1)).map (fun p => (p.1, fallbackSC))), ?_⟩
      simp only [processBatch, he, Bool.false_eq_true, if_false]
      rw [applyFold_eq arr m []]
      simp only [List.nil_append]
      rw [fillUncovered_eq]
      simp

theorem rmLookup_append_right_ne_none (m1 m2 : RMap) (k : Int)
    (h : rmLookup m2 k ≠ none) : rmLookup (m1 ++ m2) k ≠ none := by
  rw [rmLookup_append]
  cases hm : rmLookup m2 k
  · exact absurd hm h
  · simp

theorem processBatch_fail_lookup (m : RMap) (batch : List (Int × String)) (r : Int)
    (t : String) (hmem : (r, t) ∈ batch) :
    rmLookup (processBatch m batch .fail) r = some fallbackSC := by
  show rmLookup (fillAll m batch) r = _
  rw [fillAll_lookup]
  have hconts : (batch.map Prod.fst).contains r = true := by
    simp only [List.contains_eq_any_beq, List.any_eq_true]
    exact ⟨r, List.mem_map.mpr ⟨(r, t), hmem, rfl⟩, by simp⟩
  rw [hconts]
  simp

theorem rmLookup_uncovered_seg (batch : List (Int × String)) (cov : List Int) (r : Int)
    (t : String) (hmem : (r, t) ∈ batch) (hnc : cov.contains r = false) :
    rmLookup ((batch.filter (fun p => !cov.contains p.1)).map (fun p => (p.1, fallbackSC))) r =
      some fallbackSC := by
  have hall : ∀ kv ∈ (batch.filter (fun p => !cov.contains p.1)).map
      (fun p => (p.1, fallbackSC)), kv.2 = fallbackSC := by
    intro kv hkv
    obtain ⟨q, _, rfl⟩ := List.mem_map.mp hkv
    rfl
  have hfil : (r, t) ∈ batch.filter (fun p => !cov.contains p.1) := by
    rw [List.mem_filter]
    exact ⟨hmem, by rw [hnc]; rfl⟩
  exact rmLookup_all_eq _ fallbackSC r hall
    (List.mem_map.mpr ⟨(r, fallbackSC), List.mem_map.mpr ⟨(r, t), hfil, rfl⟩, rfl⟩)

theorem processBatch_ok_uncovered_lookup (m : RMap) (batch : List (Int × String))
    (arr : List RespObj) (r : Int) (t : String) (hmem : (r, t) ∈ batch)
    (hnc : (coveredOf arr).contains r = false) :
    rmLookup (processBatch m batch (.ok arr)) r = some fallbackSC := by
  cases he : arr.isEmpty with
  | true =>
    simp only [processBatch, he, if_true]
    rw [fillAll_lookup]
    have hconts : (batch.map Prod.fst).contains r = true := by
      simp only [List.contains_eq_any_beq, List.any_eq_true]
      exact ⟨r, List.mem_map.mpr ⟨(r, t), hmem, rfl⟩, by simp⟩
    rw [hconts]
    simp
  | false =>
    simp only [processBatch, he, Bool.false_eq_true, if_false]
    rw [applyFold_eq arr m []]
    simp only [List.nil_append]
    rw [fillUncovered_eq, rmLookup_append]
    rw [rmLookup_uncovered_seg batch (coveredOf arr) r t hmem hnc]

theorem processBatch_ok_covered_ne_none (m : RMap) (batch : List (Int × String))
    (arr : List RespObj) (r : Int) (hne : arr.isEmpty = false)
    (hc : (coveredOf arr).contains r = true) :
    rmLookup (processBatch m batch (.ok arr)) r ≠ none := by
  simp only [processBatch, hne, Bool.false_eq_true, if_false]
  rw [applyFold_eq arr m []]
  simp only [List.nil_append]
  rw [fillUncovered_eq]
  have hkey : r ∈ (entriesOf arr).map Prod.fst := by
    rw [keys_entriesOf]
    simpa using hc
  exact rmLookup_append_left_ne_none _ _ _
    (rmLookup_append_right_ne_none _ _ _ (rmLookup_ne_none_of_mem_keys _ r hkey))

theorem processBatch_mem_ne_none (m : RMap) (batch : List (Int × String))
    (res : CallResult) (r : Int) (t : String) (hmem : (r, t) ∈ batch) :
    rmLookup (processBatch m batch res) r ≠ none := by
  cases res with
  | fail => rw [processBatch_fail_lookup m batch r t hmem]; simp
  | ok arr =>
    cases he : arr.isEmpty with
    | true =>
      rw [processBatch_ok_uncovered_lookup m batch arr r t hmem ?_]
      · simp
      · have : arr = [] := by
          cases arr
          · rfl
          · simp [List.isEmpty] at he
        subst this
        rfl
    | false =>
      cases hc : (coveredOf arr).contains r with
      | true => exact processBatch_ok_covered_ne_none m batch arr r he hc
      | false =>
        rw [processBatch_ok_uncovered_lookup m batch arr r t hmem hc]
        simp

/-! ### The batch loop and the chunking -/

theorem runBatches_eq_append (oracle : Nat → CallResult) :
    ∀ (L : List (List (Int × String))) (i : Nat) (m : RMap),
      ∃ s, runBatches oracle i m L = m ++ s := by
  intro L
  induction L with
  | nil => intro i m; exact ⟨[], by simp [runBatches]⟩
  | cons b rest ih =>
    intro i m
    obtain ⟨s1, hs1⟩ := processBatch_eq_append m b (oracle i)
    obtain ⟨s2, hs2⟩ := ih (i + 1) (processBatch m b (oracle i))
    refine ⟨s1 ++ s2, ?_⟩
    show runBatches oracle (i + 1) (processBatch m b (oracle i)) rest = _
    rw [hs2, hs1]
    simp

theorem runBatches_ne_none_mono (oracle : Nat → CallResult)
    (L : List (List (Int × String))) (i : Nat) (m : RMap) (r : Int)
    (h : rmLookup m r ≠ none) : rmLookup (runBatches oracle i m L) r ≠ none := by
  obtain ⟨s, hs⟩ := runBatches_eq_append oracle L i m
  rw [hs]
  exact rmLookup_append_left_ne_none m s r h

theorem runBatches_covers (oracle : Nat → CallResult) (r : Int) (t : String) :
    ∀ (L : List (List (Int × String))) (i : Nat) (m : RMap),
      (∃ b ∈ L, (r, t) ∈ b) → rmLookup (runBatches oracle i m L) r ≠ none := by
  intro L
  induction L with
  | nil => rintro i m ⟨b, hb, _⟩; cases hb
  | cons b0 rest ih =>
    rintro i m ⟨b, hb, hrb⟩
    rcases List.mem_cons.mp hb with h0 | hr
    · subst h0
      exact runBatches_ne_none_mono oracle rest (i + 1) _ r
        (processBatch_mem_ne_none m b (oracle i) r t hrb)
    · exact ih (i + 1) _ ⟨b, hr, hrb⟩

theorem runBatches_allfail_lookup (r : Int) :
    ∀ (L : List (List (Int × String))) (i : Nat) (m : RMap),
      rmLookup (runBatches (fun _ => .fail) i m L) r =
        if r ∈ L.flatten.map Prod.fst then some fallbackSC else rmLookup m r := by
  intro L
  induction L with
  | nil => intro i m; simp [runBatches]
  | cons b rest ih =>
    intro i m
    show rmLookup (runBatches _ (i + 1) (processBatch m b .fail) rest) r = _
    rw [ih (i + 1) (processBatch m b .fail)]
    have hfa : rmLookup (processBatch m b .fail) r =
        if (b.map Prod.fst).contains r then some fallbackSC else rmLookup m r :=
      fillAll_lookup m b r
    by_cases hrest : r ∈ rest.flatten.map Prod.fst
    · have hjoin : r ∈ (b :: rest).flatten.map Prod.fst := by
        simp only [List.flatten_cons, List.map_append, List.mem_append]
        exact Or.inr hrest
      rw [if_pos hrest, if_pos hjoin]
    · rw [if_neg hrest, hfa]
      by_cases hb : r ∈ b.map Prod.fst
      · have hconts : (b.map Prod.fst).contains r = true := by simpa using hb
        have hjoin : r ∈ (b :: rest).flatten.map Prod.fst := by
          simp only [List.flatten_cons, List.map_append, List.mem_append]
          exact Or.inl hb
        rw [hconts, if_pos hjoin]
        simp
      · have hconts : (b.map Prod.fst).contains r = false := by simpa using hb
        have hjoin : r ∉ (b :: rest).flatten.map Prod.fst := by
          simp only [List.flatten_cons, List.map_append, List.mem_append]
          rintro (h1 | h2)
          · exact hb h1
          · exact hrest h2
        rw [hconts, if_neg hjoin]
        simp

theorem chunksF_join (bs : Nat) (hbs : 0 < bs) :
    ∀ (fuel : Nat) (l : List (Int × String)), l.length ≤ fuel →
      (chunksF bs fuel l).flatten = l := by
  intro fuel
  induction fuel with
  | zero =>
    intro l hl
    have : l = [] := List.eq_nil_of_length_eq_zero (Nat.le_zero.mp hl)
    subst this
    rfl
  | succ f ih =>
    intro l hl
    cases l with
    | nil => rfl
    | cons x xs =>
      show (((x :: xs).take bs) :: chunksF bs f ((x :: xs).drop bs)).flatten = x :: xs
      rw [List.flatten_cons]
      rw [ih ((x :: xs).drop bs) ?hlen]
      · exact List.take_append_drop bs (x :: xs)
      case hlen =>
        have h3 : 1 ≤ bs := hbs
        have h4 : ((x :: xs).drop bs).length = (x :: xs).length - bs := List.length_drop bs _
        simp only [List.length_cons] at hl h4
        omega

theorem chunks_join (bs : Nat) (l : List (Int × String)) (hbs : 0 < bs) :
    (chunks bs l).flatten = l :=
  chunksF_join bs hbs l.length l le_rfl

/-! ### Dedup and stable sort -/

theorem insertDesc_perm (x : NewsRec) (l : List NewsRec) :
    List.Perm (insertDesc x l) (x :: l) := by
  induction l with
  | nil => exact List.Perm.refl _
  | cons y ys ih =>
    show List.Perm (if sortKey x < sortKey y then y :: insertDesc x ys else x :: y :: ys)
      (x :: y :: ys)
    by_cases h : sortKey x < sortKey y
    · rw [if_pos h]
      exact (ih.cons y).trans (List.Perm.swap x y ys)
    · rw [if_neg h]

theorem sortByDateDesc_perm (l : List NewsRec) : List.Perm (sortByDateDesc l) l := by
  induction l with
  | nil => exact List.Perm.refl _
  | cons x xs ih =>
    show List.Perm (insertDesc x (sortByDateDesc xs)) (x :: xs)
    exact (insertDesc_perm x (sortByDateDesc xs)).trans (ih.cons x)

theorem dedupGo_facts :
    ∀ (l : List NewsRec) (seen : List String) (r : NewsRec),
      r ∈ dedupGo seen l →
      seen.contains r.url = false ∧ l.find? (fun x => x.url == r.url) = some r := by
  intro l
  induction l with
  | nil => intro seen r h; cases h
  | cons x xs ih =>
    intro seen r h
    cases hx : seen.contains x.url with
    | true =>
      have hx2 : x.url ∈ seen := by simpa using hx
      rw [show dedupGo seen (x :: xs) = dedupGo seen xs by simp [dedupGo, hx2]] at h
      obtain ⟨h1, h2⟩ := ih seen r h
      refine ⟨h1, ?_⟩
      have hne : ¬(x.url == r.url) = true := by
        intro he
        have : x.url = r.url := by simpa using he
        rw [this] at hx
        rw [hx] at h1
        cases h1
      rw [List.find?_cons_of_neg xs hne]
      exact h2
    | false =>
      have hx2 : x.url ∉ seen := by simpa using hx
      rw [show dedupGo seen (x :: xs) = x :: dedupGo (x.url :: seen) xs by
        simp [dedupGo, hx2]] at h
      rcases List.mem_cons.mp h with rfl | htail
      · exact ⟨hx, List.find?_cons_of_pos xs (by simp)⟩
      · obtain ⟨h1, h2⟩ := ih (x.url :: seen) r htail
        rw [List.contains_cons] at h1
        have h1s : (r.url == x.url) = false ∧ seen.contains r.url = false := by
          cases hru : (r.url == x.url) with
          | true => rw [hru] at h1; simp at h1
          | false =>
            refine ⟨rfl, ?_⟩
            rw [hru] at h1
            simpa using h1
        refine ⟨h1s.2, ?_⟩
        have hne : ¬(x.url == r.url) = true := by
          intro he
          have hx2 : x.url = r.url := by simpa using he
          have : (r.url == x.url) = true := by simp [hx2]
          rw [h1s.1] at this
          cases this
        rw [List.find?_cons_of_neg xs hne]
        exact h2

theorem dedupGo_pairwise :
    ∀ (l : List NewsRec) (seen : List String),
      List.Pairwise (fun a b => a.url ≠ b.url) (dedupGo seen l) := by
  intro l
  induction l with
  | nil => intro seen; exact List.Pairwise.nil
  | cons x xs ih =>
    intro seen
    cases hx : seen.contains x.url with
    | true =>
      have hx2 : x.url ∈ seen := by simpa using hx
      rw [show dedupGo seen (x :: xs) = dedupGo seen xs by simp [dedupGo, hx2]]
      exact ih seen
    | false =>
      have hx2 : x.url ∉ seen := by simpa using hx
      rw [show dedupGo seen (x :: xs) = x :: dedupGo (x.url :: seen) xs by
        simp [dedupGo, hx2]]
      refine List.Pairwise.cons ?_ (ih (x.url :: seen))
      intro b hb
      have h1 := (dedupGo_facts xs (x.url :: seen) b hb).1
      rw [List.contains_cons] at h1
      intro he
      have : (b.url == x.url) = true := by simp [he]
      rw [this] at h1
      simp at h1

theorem dedup_sort_pairwise (l : List NewsRec) :
    List.Pairwise (fun a b => a.url ≠ b.url) (dedup_sort l) := by
  have hperm : List.Perm (sortByDateDesc (dedupURL l)) (dedupURL l) := sortByDateDesc_perm _
  exact (List.Perm.pairwise_iff (fun h he => h he.symm) hperm).mpr (dedupGo_pairwise l [])

theorem dedup_sort_first_wins (l : List NewsRec) (r : NewsRec) (h : r ∈ dedup_sort l) :
    l.find? (fun x => x.url == r.url) = some r := by
  have hmem : r ∈ dedupURL l := (sortByDateDesc_perm (dedupURL l)).mem_iff.mp h
  exact (dedupGo_facts l [] r hmem).2

theorem dedup_sort_mem (l : List NewsRec) (r : NewsRec) (h : r ∈ dedup_sort l) :
    r ∈ l :=
  List.mem_of_find?_eq_some (dedup_sort_first_wins l r h)

theorem filteredFor_mem (rows : List NewsRec) (s e : DT) (src : String) (r : NewsRec)
    (h : r ∈ filteredFor rows s e src) :
    r ∈ rows ∧ r.source = src ∧ ∃ t, r.pub = some t ∧ inWindow s e t = true := by
  obtain ⟨hmem, hpred⟩ := List.mem_filter.mp h
  refine ⟨hmem, ?_, ?_⟩
  · cases hp : r.pub with
    | none => rw [hp] at hpred; cases hpred
    | some t =>
      rw [hp] at hpred
      have := (Bool.and_eq_true _ _).mp hpred
      simpa using this.2
  · cases hp : r.pub with
    | none => rw [hp] at hpred; cases hpred
    | some t =>
      rw [hp] at hpred
      have := (Bool.and_eq_true _ _).mp hpred
      exact ⟨t, rfl, this.1⟩

theorem fmtMin_of_emod (d : DT) (h : d.sec % 60 = 0) : fmtMin d = d := by
  simp [fmtMin, h]

/-- The shape of a successful `classify_titles_in_batches` run: with a
non-empty key, a wide-enough header, a non-empty item list and a
non-empty update list, the written G/H rows are `updatesOf` of the
finished result map. -/
theorem classify_eq_updates (apiKey : String) (hdr : List String)
    (rest : List (List String)) (oracle : Nat → CallResult) (bs : Nat)
    (hk : (apiKey == "") = false) (h3 : ¬ hdr.length < 3)
    (hit : (itemsOf (hdr :: rest)).isEmpty = false)
    (hupd : (updatesOf (resultsMap (hdr :: rest) oracle bs)).isEmpty = false) :
    classify_titles_in_batches apiKey (hdr :: rest) oracle bs =
      some (updatesOf (resultsMap (hdr :: rest) oracle bs)) := by
  simp only [classify_titles_in_batches, setup_gemini, hk, Bool.false_eq_true, if_false,
    if_neg h3, hit, hupd]

/-- A one-titled-row sheet with a single well-formed response entry for
row 2: the written G/H pair is exactly the response's (defaulted)
sentiment/category, whatever the title. -/
theorem classify_single_row (t s c : String) (ht : t ≠ "") (hs : s ≠ "") (hc : c ≠ "") :
    classify_titles_in_batches "k" [["ソース", "URL", "タイトル"], ["MSN", "u", t]]
      (fun _ => .ok [⟨some 2, s, c⟩]) 80 = some [(s, c)] := by
  have htb : (t == "") = false := beq_eq_false_iff_ne.mpr ht
  have hsb : (s == "") = false := beq_eq_false_iff_ne.mpr hs
  have hcb : (c == "") = false := beq_eq_false_iff_ne.mpr hc
  have hsv : (if s == "" then "ニュートラル" else s) = s := by rw [hsb]; rfl
  have hcv : (if c == "" then "その他" else c) = c := by rw [hcb]; rfl
  have hitems : itemsOf [["ソース", "URL", "タイトル"], ["MSN", "u", t]] = [((2 : Int), t)] := by
    simp [itemsOf, ht]
  have hmap : resultsMap [["ソース", "URL", "タイトル"], ["MSN", "u", t]]
      (fun _ => .ok [⟨some 2, s, c⟩]) 80 = [((2 : Int), (s, c))] := by
    rw [resultsMap, hitems]
    show fillUncovered [((2 : Int), ((if s == "" then "ニュートラル" else s),
      (if c == "" then "その他" else c)))] [((2 : Int), t)] [(2 : Int)] = _
    rw [hsv, hcv]
    rfl
  rw [classify_eq_updates "k" _ _ _ 80 rfl (by decide) (by rw [hitems]; rfl)
    (by rw [hmap]; rfl)]
  rw [hmap]
  rfl

/-! ### Claims -/

/-- C1 (counterexample): deduplication is not global across sources — a
URL present in both the MSN group and the Google group survives twice in
the merged output, so the output does contain two records sharing a url. -/
theorem C1_counterexample :
    (orderedOf
        [⟨"MSN", "u", "T1", some ⟨1755680400⟩, "o1"⟩,
         ⟨"Google", "u", "T2", some ⟨1755680400⟩, "o2"⟩]
        ⟨1755615600⟩ ⟨1755701999⟩).map NewsRec.url = ["u", "u"] := by
  decide

/-- C1 (amended): deduplication by url is per source group, not global:
within each group's contribution the first occurrence wins and no two
records share a url, the groups appear in the fixed order MSN, Google,
Yahoo, and each group's records come from the input with that source and
an in-window resolved time — but a url present in two different source
groups survives once per group. -/
theorem C1_per_group_dedup (rows : List NewsRec) (s e : DT) :
    orderedOf rows s e =
      dedup_sort (filteredFor rows s e "MSN") ++ dedup_sort (filteredFor rows s e "Google")
        ++ dedup_sort (filteredFor rows s e "Yahoo") ∧
    (∀ l : List NewsRec, List.Pairwise (fun a b => a.url ≠ b.url) (dedup_sort l)) ∧
    (∀ (l : List NewsRec) (r : NewsRec), r ∈ dedup_sort l →
      l.find? (fun x => x.url == r.url) = some r) ∧
    (∀ (src : String) (r : NewsRec), r ∈ dedup_sort (filteredFor rows s e src) →
      r ∈ rows ∧ r.source = src ∧ ∃ t, r.pub = some t ∧ inWindow s e t = true) := by
  refine ⟨rfl, dedup_sort_pairwise, dedup_sort_first_wins, ?_⟩
  intro src r hr
  exact filteredFor_mem rows s e src r (dedup_sort_mem _ r hr)

/-- C1 witness: first-occurrence-wins applied to a concrete two-record
group sharing a url. -/
theorem C1_witness :
    [(⟨"MSN", "a", "T1", some ⟨5⟩, "o"⟩ : NewsRec),
     ⟨"MSN", "a", "T2", some ⟨6⟩, "o"⟩].find?
      (fun x => x.url == (⟨"MSN", "a", "T1", some ⟨5⟩, "o"⟩ : NewsRec).url) =
      some ⟨"MSN", "a", "T1", some ⟨5⟩, "o"⟩ :=
  (C1_per_group_dedup [] ⟨0⟩ ⟨0⟩).2.2.1
    [⟨"MSN", "a", "T1", some ⟨5⟩, "o"⟩, ⟨"MSN", "a", "T2", some ⟨6⟩, "o"⟩]
    ⟨"MSN", "a", "T1", some ⟨5⟩, "o"⟩ (by decide)

/-- C3 (counterexample): the claim's asserted window end — today at the
anchor hour 15:00 — is not the computed end, and a record whose resolved
time is exactly today 15:00 is excluded: on 2025-08-20 12:00,
`compute_window` ends at 14:59:59, and 2025-08-20 15:00 fails the
`start <= dt <= end` filter test. -/
theorem C3_counterexample :
    (compute_window ⟨20320 * 86400 + 12 * 3600⟩).2.1 ≠ dtCombine 20320 (15 * 3600) ∧
    inWindow (compute_window ⟨20320 * 86400 + 12 * 3600⟩).1
      (compute_window ⟨20320 * 86400 + 12 * 3600⟩).2.1 (dtCombine 20320 (15 * 3600)) = false := by
  decide

/-- C3 (amended): the window anchored at today's 15:00 has
`end` = anchor − 1 second (14:59:59) and `start` = anchor − 24 hours, so
it spans 24 hours minus one second; the filter keeps a record iff
`start ≤ t ≤ end` with both bounds inclusive — `start` and `end`
themselves are kept, one second before `start` is excluded, and the
anchor 15:00 itself is excluded. -/
theorem C3_window_bounds (now : DT) :
    (compute_window now).2.1 = (dtCombine now.dateOf (15 * 3600)).addSeconds (-1) ∧
    (compute_window now).1 = (dtCombine now.dateOf (15 * 3600)).addDays (-1) ∧
    (compute_window now).2.1.sec - (compute_window now).1.sec = 86400 - 1 ∧
    (∀ t : DT, inWindow (compute_window now).1 (compute_window now).2.1 t = true ↔
      (compute_window now).1.sec ≤ t.sec ∧ t.sec ≤ (compute_window now).2.1.sec) ∧
    inWindow (compute_window now).1 (compute_window now).2.1 (compute_window now).1 = true ∧
    inWindow (compute_window now).1 (compute_window now).2.1 (compute_window now).2.1 = true ∧
    inWindow (compute_window now).1 (compute_window now).2.1
      ((compute_window now).1.addSeconds (-1)) = false ∧
    inWindow (compute_window now).1 (compute_window now).2.1
      (dtCombine now.dateOf (15 * 3600)) = false := by
  refine ⟨rfl, rfl, ?_, ?_, ?_, ?_, ?_, ?_⟩
  · simp only [compute_window, dtCombine, DT.addSeconds, DT.addDays]
    omega
  · intro t
    simp [inWindow]
  · simp only [compute_window, dtCombine, DT.addSeconds, DT.addDays, inWindow,
      Bool.and_eq_true, decide_eq_true_eq]
    omega
  · simp only [compute_window, dtCombine, DT.addSeconds, DT.addDays, inWindow,
      Bool.and_eq_true, decide_eq_true_eq]
    omega
  · simp only [compute_window, dtCombine, DT.addSeconds, DT.addDays, inWindow,
      Bool.and_eq_true, Bool.and_eq_false_iff, decide_eq_false_iff_not]
    omega
  · simp only [compute_window, dtCombine, DT.addSeconds, DT.addDays, inWindow,
      Bool.and_eq_true, Bool.and_eq_false_iff, decide_eq_false_iff_not]
    omega

/-- C3 witness: the inclusive upper bound at a concrete run time. -/
theorem C3_witness :
    inWindow (compute_window ⟨20320 * 86400 + 12 * 3600⟩).1
      (compute_window ⟨20320 * 86400 + 12 * 3600⟩).2.1
      (compute_window ⟨20320 * 86400 + 12 * 3600⟩).2.1 = true :=
  (C3_window_bounds ⟨20320 * 86400 + 12 * 3600⟩).2.2.2.2.2.1

/-- C5 (counterexample): a timestamp carrying an explicit UTC offset is
not converted by a fixed offset add: the same offset-bearing value
resolves to different local instants under ambient system offsets 0
(UTC) and 540 (JST). -/
theorem C5_counterexample :
    try_parse_jst (.withOffset ⟨0⟩ 0) 0 ≠ try_parse_jst (.withOffset ⟨0⟩ 0) 540 := by
  decide

/-- C5 (amended): a "Z"-suffixed timestamp is converted by the fixed +9h
add, independent of the ambient system offset; but an explicit-offset
timestamp goes through `astimezone(tz=None)` — the ambient system
timezone — before the +9h add, so two different ambient offsets always
give two different resolved instants. -/
theorem C5_zulu_fixed_offset_ambient (dt : DT) (off s1 s2 : Int) :
    try_parse_jst (.zulu dt) s1 = some (dt.addHours 9) ∧
    try_parse_jst (.zulu dt) s1 = try_parse_jst (.zulu dt) s2 ∧
    (s1 ≠ s2 →
      try_parse_jst (.withOffset dt off) s1 ≠ try_parse_jst (.withOffset dt off) s2) := by
  refine ⟨rfl, rfl, ?_⟩
  intro hne heq
  apply hne
  simp only [try_parse_jst, DT.addMinutes, DT.addHours, Option.some.injEq, DT.mk.injEq] at heq
  omega

/-- C5 witness: the offset-dependence branch at a concrete input. -/
theorem C5_witness :
    try_parse_jst (.withOffset ⟨0⟩ 3) 0 ≠ try_parse_jst (.withOffset ⟨0⟩ 3) 540 :=
  (C5_zulu_fixed_offset_ambient ⟨0⟩ 3 0 540).2.2 (by decide)

/-- C6 (counterexample): an MSN card carrying both a parseable relative
label (3時間前 → 09:00) and a parseable absolute JSON-LD date (10:00)
that disagree resolves to the relative label's value, not the absolute
field's value. -/
theorem C6_counterexample :
    msn_resolve_pub (.hoursAgo 3) ⟨[.naive ⟨20320 * 86400 + 10 * 3600⟩], none, []⟩ none
        ⟨20320 * 86400 + 12 * 3600⟩ 540 = some ⟨20320 * 86400 + 9 * 3600⟩ ∧
    extract_datetime_from_article ⟨[.naive ⟨20320 * 86400 + 10 * 3600⟩], none, []⟩ 540 =
      some ⟨20320 * 86400 + 10 * 3600⟩ ∧
    (⟨20320 * 86400 + 9 * 3600⟩ : DT) ≠ ⟨20320 * 86400 + 10 * 3600⟩ := by
  refine ⟨?_, ?_, by decide⟩ <;> decide

/-- C6 (amended): the MSN resolution tries the relative aria-label first:
whenever the label parses, its value is the resolved time regardless of
the article's absolute metadata; the absolute extraction and the
Last-Modified header are consulted only when the relative label fails. -/
theorem C6_relative_label_first (lab : RelLabel) (doc : ArticleDoc) (lastMod : Option DT)
    (base : DT) (sysOff : Int) :
    (∀ d, parse_relative_time lab base = some d →
      msn_resolve_pub lab doc lastMod base sysOff = some d) ∧
    (parse_relative_time lab base = none →
      msn_resolve_pub lab doc lastMod base sysOff =
        (extract_datetime_from_article doc sysOff).or lastMod) := by
  constructor
  · intro d hd
    simp [msn_resolve_pub, hd]
  · intro hd
    simp only [msn_resolve_pub, hd]
    cases extract_datetime_from_article doc sysOff <;> rfl

/-- C6 witness: the relative-first branch at a concrete input. -/
theorem C6_witness :
    msn_resolve_pub (.hoursAgo 3) ⟨[], none, []⟩ none ⟨20320 * 86400 + 12 * 3600⟩ 540 =
      some ⟨20320 * 86400 + 9 * 3600⟩ :=
  (C6_relative_label_first (.hoursAgo 3) ⟨[], none, []⟩ none
    ⟨20320 * 86400 + 12 * 3600⟩ 540).1 ⟨20320 * 86400 + 9 * 3600⟩ (by decide)

/-- C9 (confirmed): relative labels resolve against the anchor:
N分前/N時間前/N日前 give the anchor minus N minutes/hours/days (exactly,
for an anchor on a whole minute, since the output format keeps minutes);
"3時間前" at anchor 2025-08-20 12:00 gives 2025-08-20 09:00; and an
"HH:MM" label strictly later than the anchor resolves to that time on
the previous day (otherwise to today). -/
theorem C9_relative_resolution (base : DT) (n h mi : Nat)
    (hbase : base.sec % 60 = 0) (hh : h ≤ 23) (hmi : mi ≤ 59) :
    parse_relative_time (.minutesAgo n) base = some (base.addMinutes (-(n : Int))) ∧
    parse_relative_time (.hoursAgo n) base = some (base.addHours (-(n : Int))) ∧
    parse_relative_time (.daysAgo n) base = some (base.addDays (-(n : Int))) ∧
    (base.sec < (dtCombine base.dateOf ((h : Int) * 3600 + (mi : Int) * 60)).sec →
      parse_relative_time (.hourMin h mi) base =
        some ((dtCombine base.dateOf ((h : Int) * 3600 + (mi : Int) * 60)).addDays (-1))) ∧
    (¬ base.sec < (dtCombine base.dateOf ((h : Int) * 3600 + (mi : Int) * 60)).sec →
      parse_relative_time (.hourMin h mi) base =
        some (dtCombine base.dateOf ((h : Int) * 3600 + (mi : Int) * 60))) ∧
    parse_relative_time (.hoursAgo 3) ⟨20320 * 86400 + 12 * 3600⟩ =
      some ⟨20320 * 86400 + 9 * 3600⟩ := by
  refine ⟨?_, ?_, ?_, ?_, ?_, by decide⟩
  · show some (fmtMin (base.addMinutes (-(n : Int)))) = _
    rw [fmtMin_of_emod _ (by simp only [DT.addMinutes]; omega)]
  · show some (fmtMin (base.addHours (-(n : Int)))) = _
    rw [fmtMin_of_emod _ (by simp only [DT.addHours]; omega)]
  · show some (fmtMin (base.addDays (-(n : Int)))) = _
    rw [fmtMin_of_emod _ (by simp only [DT.addDays]; omega)]
  · intro hlt
    show (if h ≤ 23 && mi ≤ 59 then _ else none) = _
    rw [if_pos (by simp [hh, hmi])]
    rw [if_pos hlt]
    rw [fmtMin_of_emod _ (by simp only [DT.addDays, dtCombine]; omega)]
  · intro hlt
    show (if h ≤ 23 && mi ≤ 59 then _ else none) = _
    rw [if_pos (by simp [hh, hmi])]
    rw [if_neg hlt]
    rw [fmtMin_of_emod _ (by simp only [dtCombine]; omega)]

/-- C9 witness: the previous-day branch of "HH:MM" at a concrete anchor:
13:30 seen at 2025-08-20 12:00 resolves to 2025-08-19 13:30. -/
theorem C9_witness :
    parse_relative_time (.hourMin 13 30) ⟨20320 * 86400 + 12 * 3600⟩ =
      some ⟨1755610200⟩ :=
  ((C9_relative_resolution ⟨20320 * 86400 + 12 * 3600⟩ 3 13 30 (by decide) (by decide)
    (by decide)).2.2.2.1 (by decide)).trans (by decide)

/-- C2 (counterexample): with no API key configured, the classification
step is skipped entirely — nothing at all is written to G/H even though
the sheet has a titled row — rather than every row being written with the
fallback classification. -/
theorem C2_counterexample :
    classify_titles_in_batches "" [["ソース", "URL", "タイトル"], ["MSN", "u", "t"]]
        (fun _ => .ok []) 80 = none ∧
    setup_gemini "" = none :=
  ⟨rfl, rfl⟩

/-- C2 (amended): with an empty API key the run still completes but the
classification step is skipped and no sentiment/category is written;
with a key configured and every classification call failing, every
titled row receives the fallback classification. -/
theorem C2_skip_or_fallback (values : List (List String)) (oracle : Nat → CallResult)
    (bs : Nat) (r : Int) (t : String) (hbs : 0 < bs) (hmem : (r, t) ∈ itemsOf values) :
    classify_titles_in_batches "" values oracle bs = none ∧
    rmLookup (resultsMap values (fun _ => .fail) bs) r = some fallbackSC := by
  constructor
  · rfl
  · show rmLookup (runBatches _ 0 [] (chunks bs (itemsOf values))) r = _
    rw [runBatches_allfail_lookup r (chunks bs (itemsOf values)) 0 []]
    have hj : (chunks bs (itemsOf values)).flatten = itemsOf values := chunks_join bs _ hbs
    have hmem2 : r ∈ ((chunks bs (itemsOf values)).flatten.map Prod.fst) := by
      rw [hj]
      exact List.mem_map.mpr ⟨(r, t), hmem, rfl⟩
    rw [if_pos hmem2]

/-- C2 witness: the all-calls-fail branch at a concrete sheet. -/
theorem C2_witness :
    rmLookup (resultsMap [["ソース", "URL", "タイトル"], ["MSN", "u", "t"]]
        (fun _ => .fail) 80) 2 = some fallbackSC :=
  (C2_skip_or_fallback [["ソース", "URL", "タイトル"], ["MSN", "u", "t"]]
    (fun _ => .ok []) 80 2 "t" (by decide) (by decide)).2

/-- C4 (counterexample): a written row can be blank: a well-formed
response entry claiming row 5 for a batch that only sent row 2 makes the
written G/H range span rows 2–5, with rows 3 and 4 written blank (and
blank is not the fallback). -/
theorem C4_counterexample :
    classify_titles_in_batches "k" [["ソース", "URL", "タイトル"], ["MSN", "u", "t"]]
        (fun _ => .ok [⟨some 5, "ポジティブ", "車"⟩]) 80 =
      some [("ニュートラル", "その他"), ("", ""), ("", ""), ("ポジティブ", "車")] ∧
    (("", "") : String × String) ≠ fallbackSC := by
  exact ⟨rfl, by decide⟩

/-- C4 (amended): no index that was sent is ever left unset: for any call
outcomes, every titled row has an entry in the result map, and within a
batch a row not covered by the response's claimed indices receives the
fallback (a failed call gives the whole batch the fallback); blank G/H
cells arise only at indices that were never sent, when a stray claimed
index extends the written range. -/
theorem C4_sent_rows_never_unset (values : List (List String)) (oracle : Nat → CallResult)
    (bs : Nat) (r : Int) (t : String) (m : RMap) (batch : List (Int × String))
    (arr : List RespObj) (hbs : 0 < bs) (hmem : (r, t) ∈ itemsOf values)
    (hb : (r, t) ∈ batch) (hnc : (coveredOf arr).contains r = false) :
    rmLookup (resultsMap values oracle bs) r ≠ none ∧
    rmLookup (processBatch m batch (.ok arr)) r = some fallbackSC ∧
    rmLookup (processBatch m batch .fail) r = some fallbackSC := by
  refine ⟨?_, processBatch_ok_uncovered_lookup m batch arr r t hb hnc,
    processBatch_fail_lookup m batch r t hb⟩
  show rmLookup (runBatches oracle 0 [] (chunks bs (itemsOf values))) r ≠ none
  apply runBatches_covers oracle r t
  have hj := chunks_join bs (itemsOf values) hbs
  rw [← hj] at hmem
  exact List.mem_flatten.mp hmem

/-- C4 witness: coverage at a concrete sheet and batch. -/
theorem C4_witness :
    rmLookup (resultsMap [["ソース", "URL", "タイトル"], ["MSN", "u", "t"]]
        (fun _ => .ok []) 80) 2 ≠ none :=
  (C4_sent_rows_never_unset [["ソース", "URL", "タイトル"], ["MSN", "u", "t"]]
    (fun _ => .ok []) 80 2 "t" [] [(2, "t")] [⟨some 5, "x", "y"⟩]
    (by decide) (by decide) (by decide) (by decide)).1

/-- C7 (counterexample): there is no retry: with call outcomes where only
the very first call fails (any repeat would succeed), the batch is
entirely substituted with the fallback — a single transient call failure
by itself causes the whole batch to fall back. -/
theorem C7_counterexample :
    classify_titles_in_batches "k"
        [["ソース", "URL", "タイトル"], ["MSN", "u", "t1"], ["Google", "v", "t2"]]
        (fun i => if i == 0 then .fail else .ok [⟨some 2, "ポジティブ", "車"⟩]) 80 =
      some [fallbackSC, fallbackSC] :=
  rfl

/-- C7 (amended): each batch is issued exactly one call; a raised call
immediately gives every row of the batch the fallback classification,
with no retry. -/
theorem C7_one_failure_fails_batch (m : RMap) (batch : List (Int × String))
    (r : Int) (t : String) (hmem : (r, t) ∈ batch) :
    rmLookup (processBatch m batch .fail) r = some fallbackSC :=
  processBatch_fail_lookup m batch r t hmem

/-- C7 witness: the failed-call substitution at a concrete batch. -/
theorem C7_witness :
    rmLookup (processBatch [] [((2 : Int), "t")] .fail) 2 = some fallbackSC :=
  C7_one_failure_fails_batch [] [(2, "t")] 2 "t" (by decide)

/-- C8 (counterexample): no deterministic rule layer overrides the
classifier's category: a title containing a rival brand's model name
(プリウス) whose response category is その他 is written その他, not the
fixed competitor-vehicle label 車（競合）. -/
theorem C8_counterexample :
    classify_titles_in_batches "k"
        [["ソース", "URL", "タイトル"], ["MSN", "u", "新型プリウスを発表"]]
        (fun _ => .ok [⟨some 2, "ポジティブ", "その他"⟩]) 80 =
      some [("ポジティブ", "その他")] ∧
    ("その他" : String) ≠ "車（競合）" :=
  ⟨rfl, by decide⟩

/-- C8 (amended): the sentiment and category written to G/H are exactly
the strings the classifier returned (defaulted only when empty); the
title does not influence them — the category rules exist only as prompt
text sent to the classifier, not as a local rule layer. -/
theorem C8_classifier_passthrough (t1 t2 s c : String) (ht1 : t1 ≠ "") (ht2 : t2 ≠ "")
    (hs : s ≠ "") (hc : c ≠ "") :
    classify_titles_in_batches "k" [["ソース", "URL", "タイトル"], ["MSN", "u", t1]]
        (fun _ => .ok [⟨some 2, s, c⟩]) 80 = some [(s, c)] ∧
    classify_titles_in_batches "k" [["ソース", "URL", "タイトル"], ["MSN", "u", t1]]
        (fun _ => .ok [⟨some 2, s, c⟩]) 80 =
      classify_titles_in_batches "k" [["ソース", "URL", "タイトル"], ["MSN", "u", t2]]
        (fun _ => .ok [⟨some 2, s, c⟩]) 80 := by
  have h1 := classify_single_row t1 s c ht1 hs hc
  have h2 := classify_single_row t2 s c ht2 hs hc
  exact ⟨h1, h1.trans h2.symm⟩

/-- C8 witness: pass-through at concrete strings. -/
theorem C8_witness :
    classify_titles_in_batches "k" [["ソース", "URL", "タイトル"], ["MSN", "u", "a"]]
        (fun _ => .ok [⟨some 2, "ネガティブ", "株式"⟩]) 80 = some [("ネガティブ", "株式")] :=
  (C8_classifier_passthrough "a" "b" "ネガティブ" "株式" (by decide) (by decide)
    (by decide) (by decide)).1

/-- C10 (confirmed): a well-formed response entry claiming row index 5 —
outside the only batch sent (row 2) and outside the sheet — is stored in
the result map under that claimed index, the written range extends to the
maximum such index, and the uncovered intervening rows 3 and 4 are
written blank. -/
theorem C10_stray_index_stored :
    rmLookup (resultsMap [["ソース", "URL", "タイトル"], ["Yahoo", "u", "t"]]
        (fun _ => .ok [⟨some 5, "ポジティブ", "車"⟩]) 80) 5 = some ("ポジティブ", "車") ∧
    maxRowOf (resultsMap [["ソース", "URL", "タイトル"], ["Yahoo", "u", "t"]]
        (fun _ => .ok [⟨some 5, "ポジティブ", "車"⟩]) 80) = 5 ∧
    classify_titles_in_batches "k" [["ソース", "URL", "タイトル"], ["Yahoo", "u", "t"]]
        (fun _ => .ok [⟨some 5, "ポジティブ", "車"⟩]) 80 =
      some [("ニュートラル", "その他"), ("", ""), ("", ""), ("ポジティブ", "車")] :=
  ⟨rfl, rfl, rfl⟩

end NewsAgg
